import Mathlib

/-!
Verification of the MaiBot Telegram adapter core: a shallow embedding of
the sliding-window deduper (`src/utils.py`), the poll loop's per-update
offset/dedup step and the bootstrap offset resolution (`main.py`), the
runtime conversation state (`src/runtime_state.py`), the outbound send
routing, chat-id normalization and segment flattening
(`src/send_handler/main_send_handler.py`), and the text-send retry
protocol (`src/telegram_client.py`), together with theorems settling the
specification's claims about them.
-/

namespace TGAdapter

/-! ## SlidingWindowDeduper (src/utils.py, lines 9-24)

The Python class keeps a `deque` (`_keys`, oldest first, bounded by
`maxlen = _window_size`) and a mirror `set` (`_key_set`).  We embed the
deque as a `List Int` (head = oldest) and the set as a `Finset Int`.
Keys are specialized to `Int`, the type used at every call site. -/

structure SlidingWindowDeduper where
  windowSize : Nat
  keys : List Int
  keySet : Finset Int
  deriving DecidableEq

/-- Constructor `__init__`: `self._window_size = max(1, int(window_size))`, empty deque and set. -/
def SlidingWindowDeduper.mk0 (window_size : Int) : SlidingWindowDeduper :=
  { windowSize := (max 1 window_size).toNat
    keys := []
    keySet := ∅ }

/-- Method `seen_or_add` (src/utils.py lines 15-24): membership test on the set;
on a miss, record the deque head as `evicted` when the deque is full,
append the key (a full `deque` with `maxlen` drops its head on append),
add the key to the set and discard the evicted key from it. -/
def SlidingWindowDeduper.seenOrAdd (d : SlidingWindowDeduper) (key : Int) :
    Bool × SlidingWindowDeduper :=
  if key ∈ d.keySet then
    (true, d)
  else
    let evicted : Option Int := if d.keys.length = d.windowSize then d.keys.head? else none
    let keys' := (if d.keys.length = d.windowSize then d.keys.tail else d.keys) ++ [key]
    let set' := insert key d.keySet
    let set' := match evicted with
      | some e => set'.erase e
      | none => set'
    (false, { d with keys := keys', keySet := set' })

/-- Run a sequence of `seen_or_add` calls, keeping only the final state. -/
def SlidingWindowDeduper.runAdds (d : SlidingWindowDeduper) : List Int → SlidingWindowDeduper
  | [] => d
  | k :: ks => ((d.seenOrAdd k).2).runAdds ks

/-- The spec's trailing window of the most recent distinct keys: a key
already in the window leaves it unchanged; a new key is appended and the
oldest entries beyond capacity `n` are dropped. -/
def specWindowStep (n : Nat) (w : List Int) (k : Int) : List Int :=
  if k ∈ w then w else
    let w' := w ++ [k]
    w'.drop (w'.length - n)

/-- The spec's window after a whole sequence of operations. -/
def specWindow (n : Nat) : List Int → List Int
  | [] => []
  | k :: ks => specWindowRun n (specWindowStep n [] k) ks
where
  specWindowRun (n : Nat) (w : List Int) : List Int → List Int
  | [] => w
  | k :: ks => specWindowRun n (specWindowStep n w k) ks

/-- Structural invariant tying the mirror set to the deque: the deque has
no duplicates, is bounded by the window size (which is positive), and the
set holds exactly the deque's elements. -/
def SlidingWindowDeduper.WF (d : SlidingWindowDeduper) : Prop :=
  d.keys.Nodup ∧ d.keys.length ≤ d.windowSize ∧ 1 ≤ d.windowSize ∧
    ∀ k, k ∈ d.keySet ↔ k ∈ d.keys

/-! ## Poll loop per-update processing (main.py, telegram_poll_loop, lines 72-97)

One raw update is embedded as `Option Int`: `some uid` when its
`update_id` field is present and parses as an integer, `none` when the
field is missing or unparseable (both are logged and skipped without
touching the offset or the deduper). -/

/-- Loop-local state of `telegram_poll_loop`: the poll offset (starts as
`None`) and the dedup window. -/
structure PollState where
  offset : Option Int
  deduper : SlidingWindowDeduper
  deriving DecidableEq

/-- The offset update performed for one parsed uid (main.py lines 84-85):
`next_offset = uid + 1; offset = next_offset if offset is None else
max(offset, next_offset)`. -/
def advanceOffset (o : Option Int) (uid : Int) : Int :=
  match o with
  | none => uid + 1
  | some v => max v (uid + 1)

/-- The body of the `for upd in updates` loop for one update (main.py
lines 72-97): skip a missing/unparseable uid; otherwise advance the
offset to `uid + 1` (or `max(offset, uid + 1)`), then run `seen_or_add`
and dispatch to the handler only on a miss.  The result's second
component records a dispatch as `(uid, offset at dispatch time)`; handler
exceptions are caught by the loop and do not alter the state. -/
def processUpdate (st : PollState) : Option Int → PollState × Option (Int × Int)
  | none => (st, none)
  | some uid =>
    let off := advanceOffset st.offset uid
    let r := st.deduper.seenOrAdd uid
    (⟨some off, r.2⟩, if r.1 then none else some (uid, off))

/-- Processing of one poll response's update list, in order, collecting
the dispatches made to `handler.handle_update`. -/
def processBatch (st : PollState) : List (Option Int) → PollState × List (Int × Int)
  | [] => (st, [])
  | u :: us =>
    let r := processUpdate st u
    let rest := processBatch r.1 us
    (rest.1, r.2.toList ++ rest.2)

/-- The uids of a batch that the loop actually parses (present and
integer-valued). -/
def collectUids (us : List (Option Int)) : List Int :=
  us.filterMap id

/-- Spec-side first-occurrence accumulation: each uid is appended the
first time it is seen and ignored afterwards. -/
def insertFirsts (acc : List Int) : List Int → List Int
  | [] => acc
  | u :: us => insertFirsts (if u ∈ acc then acc else acc ++ [u]) us

/-- Spec-side list of the uids that are new relative to `acc`, each at
its first occurrence, in order. -/
def newFirsts (acc : List Int) : List Int → List Int
  | [] => []
  | u :: us => if u ∈ acc then newFirsts acc us else u :: newFirsts (acc ++ [u]) us

/-! ## Bootstrap offset resolution (main.py, _bootstrap_poll_offset, lines 16-51) -/

/-- Outcome of the bootstrap `get_updates` call: the fetch raised, or it
returned a payload with an `ok` flag and a list of updates (each update
again embedded as `some uid` / `none`). -/
inductive FetchResult where
  | failure
  | response (ok : Bool) (updates : List (Option Int))
  deriving DecidableEq

/-- The `for upd in updates` loop of `_bootstrap_poll_offset` (lines
36-44): parseable uids are fed to `seen_or_add` and the running maximum
`max_update_id` is tracked; missing/unparseable uids are skipped. -/
def bootstrapScan (d : SlidingWindowDeduper) (m : Option Int) :
    List (Option Int) → Option Int × SlidingWindowDeduper
  | [] => (m, d)
  | u :: us =>
    match u with
    | none => bootstrapScan d m us
    | some uid =>
        bootstrapScan ((d.seenOrAdd uid).2)
          (some (match m with
            | none => uid
            | some v => max v uid)) us

/-- Function `_bootstrap_poll_offset` (main.py lines 16-51): a raised fetch, a
non-ok payload or an empty update list yield no offset constraint
(`None`) and leave the deduper untouched; otherwise the backlog is
scanned and the result is `max_update_id + 1`, or `None` when no uid
parsed. -/
def bootstrapPollOffset (fetch : FetchResult) (d : SlidingWindowDeduper) :
    Option Int × SlidingWindowDeduper :=
  match fetch with
  | .failure => (none, d)
  | .response ok updates =>
    if ok = false then (none, d)
    else if updates.isEmpty then (none, d)
    else
      let r := bootstrapScan d none updates
      match r.1 with
      | none => (none, r.2)
      | some m => (some (m + 1), r.2)

/-! ## Chat type helpers (src/utils.py, lines 31-32) -/

/-- Predicate `is_group_chat`: membership of the chat type in {"group", "supergroup"}. -/
def is_group_chat (chat_type : String) : Bool :=
  chat_type = "group" || chat_type = "supergroup"

/-! ## TelegramRuntimeState (src/runtime_state.py)

The Python `OrderedDict[tuple[int, int], None]` is embedded as an
insertion-ordered list of `(chat_id, message_id)` keys, oldest first
(the values are always `None` and carry no information). -/

/-- Constant `_MESSAGE_CHAT_INDEX_LIMIT` (runtime_state.py line 6). -/
def MESSAGE_CHAT_INDEX_LIMIT : Nat := 20000

structure TelegramRuntimeState where
  bot_id : Option Int
  lastPrivateChatId : Option Int
  messageChatIndex : List (Int × Int)
  deriving DecidableEq

/-- Constructor `TelegramRuntimeState.__init__`: everything empty. -/
def TelegramRuntimeState.init : TelegramRuntimeState :=
  { bot_id := none, lastPrivateChatId := none, messageChatIndex := [] }

/-- Method `record_message` (runtime_state.py lines 16-24) with the capacity as a
parameter: insert-or-refresh the `(chat_id, message_id)` key (an existing
key is moved to the end), pop the oldest entry when the capacity is
exceeded, and overwrite the last private chat id when `chat_type` is
exactly `"private"`. -/
def TelegramRuntimeState.recordMessageWith (limit : Nat) (s : TelegramRuntimeState)
    (chat_id message_id : Int) (chat_type : String) : TelegramRuntimeState :=
  let key := (chat_id, message_id)
  let idx := (s.messageChatIndex.filter (fun p => p ≠ key)) ++ [key]
  let idx := if limit < idx.length then idx.tail else idx
  { s with
    messageChatIndex := idx
    lastPrivateChatId := if chat_type = "private" then some chat_id else s.lastPrivateChatId }

/-- Method `record_message` at the class capacity `_MESSAGE_CHAT_INDEX_LIMIT`. -/
def TelegramRuntimeState.recordMessage (s : TelegramRuntimeState)
    (chat_id message_id : Int) (chat_type : String) : TelegramRuntimeState :=
  s.recordMessageWith MESSAGE_CHAT_INDEX_LIMIT chat_id message_id chat_type

/-- Method `get_chat_id_by_message_id` (runtime_state.py lines 26-30): scan the
keys newest-first and return the chat id of the first entry whose
message id matches, `None` when there is none. -/
def TelegramRuntimeState.get_chat_id_by_message_id (s : TelegramRuntimeState)
    (message_id : Int) : Option Int :=
  (s.messageChatIndex.reverse.find? (fun p => p.2 = message_id)).map Prod.fst

/-- A sequence of `record_message` calls sharing one chat type. -/
def recordSeq (ct : String) (s : TelegramRuntimeState) :
    List (Int × Int) → TelegramRuntimeState
  | [] => s
  | p :: rest => recordSeq ct (s.recordMessage p.1 p.2 ct) rest

/-! ## Outbound send routing (src/send_handler/main_send_handler.py) -/

/-- A chat-id-like Python value as routed by the send handler: an int or a
string (`chat_id: int | str`). -/
inductive ChatVal where
  | int (n : Int)
  | str (s : String)
  deriving DecidableEq

/-- Python truthiness of such a value (`0` and `""` are falsy). -/
def ChatVal.truthy : ChatVal → Bool
  | .int n => n != 0
  | .str s => s != ""

/-- Truthiness of an optional id field (`None` is falsy). -/
def truthyOpt : Option ChatVal → Bool
  | none => false
  | some v => v.truthy

/-- Destination resolution of `send_normal_message` (main_send_handler.py
lines 37-46): `additional_config.get("telegram_chat_id")` is used whenever
it `is not None`; otherwise a truthy `group_info.group_id`; otherwise a
truthy `user_info.user_id`; otherwise the send is aborted with a routing
error (`none`).  `group` (resp. `user`) is `none` when the info object is
absent or its id field is `None`. -/
def resolveChatId (hint group user : Option ChatVal) : Option ChatVal :=
  match hint with
  | some h => some h
  | none =>
    if truthyOpt group then group
    else if truthyOpt user then user
    else none

/-- The resolution order as the specification states it: group identity
first, then the per-message routing hint, then the user identity. -/
def resolveChatIdSpec (hint group user : Option ChatVal) : Option ChatVal :=
  if truthyOpt group then group
  else
    match hint with
    | some h => some h
    | none => if truthyOpt user then user else none

/-- The whitespace characters stripped by Python's default `str.strip()`
(restricted to ASCII, the only whitespace these chat ids can carry). -/
def isPySpace (c : Char) : Bool :=
  c = ' ' || c = '\t' || c = '\n' || c = '\x0d' || c = '\x0b' || c = '\x0c'

/-- Python `str.strip()`: drop leading and trailing whitespace. -/
def pyStrip (s : String) : String :=
  String.mk (((s.data.dropWhile isPySpace).reverse.dropWhile isPySpace).reverse)

/-- Python `str.lower()` on a character, restricted to the ASCII range (the error descriptions compared are
ASCII). -/
def pyCharLower (c : Char) : Char :=
  if 'A' ≤ c ∧ c ≤ 'Z' then Char.ofNat (c.toNat + 32) else c

/-- Python `str.lower()`. -/
def pyLower (s : String) : String :=
  String.mk (s.data.map pyCharLower)

/-- Digit run to a number, most significant first. -/
def digitsToNat (cs : List Char) : Nat :=
  cs.foldl (fun a c => a * 10 + (c.toNat - '0'.toNat)) 0

/-- Python `int(text)` on an already-stripped string: an optional sign
followed by at least one decimal digit; anything else raises (here:
`none`). -/
def pyIntParse (s : String) : Option Int :=
  let cs := s.data
  let sign : Int := match cs with
    | '-' :: _ => -1
    | _ => 1
  let ds : List Char := match cs with
    | '-' :: rest => rest
    | '+' :: rest => rest
    | _ => cs
  if ds ≠ [] ∧ ds.all (fun c => c.isDigit) then
    some (sign * (digitsToNat ds : Int))
  else none

/-- The characters after the last colon, i.e. the second component of
Python's `text.rsplit(":", 1)` when a colon is present. -/
def afterLastColon (cs : List Char) : List Char :=
  (cs.reverse.takeWhile (fun c => c ≠ ':')).reverse

/-- The string mangling of `_normalize_chat_id` (lines 97-100): strip, and
when a colon is present keep only the (re-stripped) part after the last
colon (`rsplit(":", 1)`). -/
def normalizeText (s : String) : String :=
  let text := pyStrip s
  if text.data.contains ':' then pyStrip (String.mk (afterLastColon text.data)) else text

/-- Method `_normalize_chat_id` (main_send_handler.py lines 91-105): `None` and
ints pass through; a string is trimmed and colon-cut, converted to an int
when it parses as one, and otherwise the original raw value is returned
verbatim. -/
def normalizeChatId (raw : Option ChatVal) : Option ChatVal :=
  match raw with
  | none => none
  | some (.int n) => some (.int n)
  | some (.str s) =>
    match pyIntParse (normalizeText s) with
    | some n => some (.int n)
    | none => some (.str s)

/-! ## Segment flattening and dispatch (main_send_handler.py lines 54-86, 125-132) -/

/-- A `maim_message` segment: a leaf with a `type` string and payload, or a
`seglist` holding nested segments. -/
inductive Seg where
  | atom (type : String) (data : String)
  | seglist (xs : List Seg)

mutual
/-- Method `_recursively_flatten` (lines 125-132): a `seglist` flattens to the
concatenation of its children's flattenings, any other segment to the
one-element list holding itself. -/
def flattenSeg : Seg → List Seg
  | .atom t d => [.atom t d]
  | .seglist xs => flattenSegs xs

/-- The `for s in seg_data.data: items.extend(...)` loop of
`_recursively_flatten`. -/
def flattenSegs : List Seg → List Seg
  | [] => []
  | s :: rest => flattenSeg s ++ flattenSegs rest
end

/-- The per-segment dispatch loop of `send_normal_message` (lines 60-86)
as the list of send calls it issues, threading the per-segment
`try/except` (lines 62, 85-86) through an exception oracle: the list
`exc` holds, for each issued send call in order, whether that await
raises (`true`) or returns normally (`false`; an exhausted oracle means
the remaining calls return).  A `text` segment is sent with the pending
reply id; `reply_to = None` (line 66) runs only when that send returns,
so a raising text send leaves the id pending.  The other supported types
are sent without a reply id and leave the pending reply untouched either
way; unsupported types issue no call and are skipped. -/
def dispatchSegsExc : List Seg → Option Int → List Bool → List (String × String × Option Int)
  | [], _, _ => []
  | .seglist _ :: rest, reply, exc => dispatchSegsExc rest reply exc
  | .atom t d :: rest, reply, exc =>
    if t = "text" then
      ("text", d, reply) ::
        dispatchSegsExc rest (if exc.headD false then reply else none) exc.tail
    else if t = "image" ∨ t = "imageurl" ∨ t = "voice" ∨ t = "videourl" ∨
        t = "file" ∨ t = "emoji" then
      (t, d, none) :: dispatchSegsExc rest reply exc.tail
    else dispatchSegsExc rest reply exc

/-- The dispatch loop in a run where every send call returns normally
(empty exception oracle). -/
def dispatchSegs (segs : List Seg) (reply : Option Int) :
    List (String × String × Option Int) :=
  dispatchSegsExc segs reply []

/-! ## Text-send retry protocol (src/telegram_client.py, lines 84-163) -/

/-- The parsed shape of a `sendMessage` response as far as the retry
protocol inspects it: the `ok` flag and the optional `description`. -/
structure TgResponse where
  ok : Bool
  description : Option String
  deriving DecidableEq

/-- Whether `p` is a leading run of `s`. -/
def isLeadingRun : List Char → List Char → Bool
  | [], _ => true
  | _ :: _, [] => false
  | p :: ps, c :: cs => p = c && isLeadingRun ps cs

/-- Python's substring test `pat in s` over the underlying characters. -/
def isSubstrOf (pat s : List Char) : Bool :=
  match s with
  | [] => pat.isEmpty
  | c :: rest => isLeadingRun pat (c :: rest) || isSubstrOf pat rest

/-- Case-insensitive substring test (`"..." in description.lower()`). -/
def containsSubstr (s pat : String) : Bool :=
  isSubstrOf pat.data s.data

/-- Method `_is_message_text_empty_error` (lines 158-160): the lower-cased
description (missing description counts as `""`) contains
`"message text is empty"`. -/
def isMessageTextEmptyError (r : TgResponse) : Bool :=
  containsSubstr (pyLower (r.description.getD "")) "message text is empty"

/-- Method `_has_visible_text` (lines 162-163): non-empty after stripping
whitespace. -/
def hasVisibleText (text : String) : Bool :=
  pyStrip text != ""

/-- Method `send_message` (lines 84-140) abstracted over the transport: `first`
is the parsed response of the JSON-body send and `retry` the parsed
response the form-encoded send would produce.  Result: how many form
retries were issued (0 or 1) and the response returned to the caller. -/
def sendMessageProtocol (text : String) (first retry : TgResponse) : Nat × TgResponse :=
  if first.ok then (0, first)
  else if isMessageTextEmptyError first && hasVisibleText text then (1, retry)
  else (0, first)

end TGAdapter

namespace TGAdapter

theorem mk0_WF (w : Int) : (SlidingWindowDeduper.mk0 w).WF := by
  refine ⟨List.nodup_nil, by simp [SlidingWindowDeduper.mk0], ?_, by simp [SlidingWindowDeduper.mk0]⟩
  simp only [SlidingWindowDeduper.mk0]
  omega

theorem seenOrAdd_WF (d : SlidingWindowDeduper) (k : Int) (h : d.WF) :
    ((d.seenOrAdd k).2).WF := by
  obtain ⟨W, K, S⟩ := d
  obtain ⟨hnd, hlen, hpos, hset⟩ := h
  simp only [SlidingWindowDeduper.WF] at *
  unfold SlidingWindowDeduper.seenOrAdd
  by_cases hk : k ∈ S
  · simp only [hk, if_true]
    exact ⟨hnd, hlen, hpos, hset⟩
  · simp only [hk, if_false]
    by_cases hfull : K.length = W
    · -- full: evict the head
      cases K with
      | nil => simp at hfull; omega
      | cons a t =>
        simp only [hfull, if_true, List.head?_cons, List.tail_cons]
        have hk' : k ∉ (a :: t) := fun hmem => hk ((hset k).2 hmem)
        have hndat : a ∉ t ∧ t.Nodup := List.nodup_cons.1 hnd
        constructor
        · -- Nodup of t ++ [k]
          refine List.Nodup.append hndat.2 (List.nodup_singleton k) ?_
          intro x hx hxk
          simp at hxk
          subst hxk
          exact hk' (List.mem_cons_of_mem a hx)
        refine ⟨?_, hpos, ?_⟩
        · simp at hfull ⊢; omega
        · intro x
          simp only [Finset.mem_erase, Finset.mem_insert]
          constructor
          · rintro ⟨hxa, hx | hx⟩
            · subst hx; simp
            · have := (hset x).1 hx
              simp at this
              rcases this with h1 | h1
              · exact absurd h1 hxa
              · simp [h1]
          · intro hx
            simp at hx
            rcases hx with h1 | h1
            · constructor
              · intro hxa
                exact hndat.1 (hxa ▸ h1)
              · right; exact (hset x).2 (List.mem_cons_of_mem a h1)
            · subst h1
              constructor
              · intro hxa
                exact hk' (hxa ▸ List.mem_cons_self x t)
              · left; rfl
    · -- not full: plain append
      simp only [hfull, if_false]
      have hk' : k ∉ K := fun hmem => hk ((hset k).2 hmem)
      constructor
      · refine List.Nodup.append hnd (List.nodup_singleton k) ?_
        intro x hx hxk
        simp at hxk
        subst hxk
        exact hk' hx
      refine ⟨?_, hpos, ?_⟩
      · simp
        omega
      · intro x
        simp only [Finset.mem_insert]
        constructor
        · rintro (hx | hx)
          · subst hx; simp
          · simp [((hset x).1 hx)]
        · intro hx
          simp at hx
          rcases hx with h1 | h1
          · right; exact (hset x).2 h1
          · left; exact h1

theorem seenOrAdd_fst (d : SlidingWindowDeduper) (k : Int) (h : d.WF) :
    (d.seenOrAdd k).1 = decide (k ∈ d.keys) := by
  obtain ⟨-, -, -, hset⟩ := h
  unfold SlidingWindowDeduper.seenOrAdd
  by_cases hk : k ∈ d.keySet
  · simp [hk, (hset k).1 hk]
  · have : k ∉ d.keys := fun hm => hk ((hset k).2 hm)
    simp [hk, this]

theorem seenOrAdd_windowSize (d : SlidingWindowDeduper) (k : Int) :
    ((d.seenOrAdd k).2).windowSize = d.windowSize := by
  unfold SlidingWindowDeduper.seenOrAdd
  by_cases hk : k ∈ d.keySet <;> simp [hk]

theorem seenOrAdd_keys (d : SlidingWindowDeduper) (k : Int) (h : d.WF) :
    ((d.seenOrAdd k).2).keys = specWindowStep d.windowSize d.keys k := by
  obtain ⟨hnd, hlen, hpos, hset⟩ := h
  unfold SlidingWindowDeduper.seenOrAdd specWindowStep
  by_cases hk : k ∈ d.keySet
  · simp [hk, (hset k).1 hk]
  · have hknot : k ∉ d.keys := fun hm => hk ((hset k).2 hm)
    simp only [hk, if_false, hknot]
    by_cases hfull : d.keys.length = d.windowSize
    · cases hkeys : d.keys with
      | nil =>
        rw [hkeys] at hfull
        simp at hfull
        omega
      | cons a t =>
        rw [hkeys] at hfull
        have hW : d.windowSize = t.length + 1 := by
          simpa using hfull.symm
        rw [if_pos hfull]
        have hidx : (a :: t ++ [k]).length - d.windowSize = 1 := by
          have hl : (a :: t ++ [k]).length = t.length + 2 := by simp
          omega
        rw [hidx]
        simp
    · simp only [hfull, if_false]
      have : (d.keys ++ [k]).length - d.windowSize = 0 := by
        simp
        omega
      rw [this]
      simp

theorem runAdds_WF (ops : List Int) (d : SlidingWindowDeduper) (h : d.WF) :
    (d.runAdds ops).WF := by
  induction ops generalizing d with
  | nil => exact h
  | cons k ks ih => exact ih _ (seenOrAdd_WF d k h)

theorem runAdds_windowSize (ops : List Int) (d : SlidingWindowDeduper) :
    (d.runAdds ops).windowSize = d.windowSize := by
  induction ops generalizing d with
  | nil => rfl
  | cons k ks ih =>
    rw [SlidingWindowDeduper.runAdds, ih, seenOrAdd_windowSize]

theorem runAdds_keys_aux (ops : List Int) (d : SlidingWindowDeduper) (h : d.WF) :
    (d.runAdds ops).keys = specWindow.specWindowRun d.windowSize d.keys ops := by
  induction ops generalizing d with
  | nil => rfl
  | cons k ks ih =>
    rw [SlidingWindowDeduper.runAdds, specWindow.specWindowRun,
      ih _ (seenOrAdd_WF d k h), seenOrAdd_windowSize, seenOrAdd_keys d k h]

theorem runAdds_keys (w : Int) (ops : List Int) :
    ((SlidingWindowDeduper.mk0 w).runAdds ops).keys = specWindow (max 1 w).toNat ops := by
  cases ops with
  | nil => rfl
  | cons k ks =>
    rw [SlidingWindowDeduper.runAdds, specWindow,
      runAdds_keys_aux ks _ (seenOrAdd_WF _ k (mk0_WF w)), seenOrAdd_windowSize,
      seenOrAdd_keys _ k (mk0_WF w)]
    rfl

theorem specWindowRun_nodup_drop (n : Nat) (l : List Int) :
    ∀ w : List Int, 1 ≤ n → w.length ≤ n → (w ++ l).Nodup →
      specWindow.specWindowRun n w l = (w ++ l).drop (w.length + l.length - n) := by
  induction l with
  | nil =>
    intro w h1 hw _
    have h0 : w.length + ([] : List Int).length - n = 0 := by
      simp only [List.length_nil, Nat.add_zero]
      omega
    rw [specWindow.specWindowRun, h0]
    simp
  | cons k ks ih =>
    intro w h1 hw hnd
    have hkw : k ∉ w := by
      intro hm
      have := List.disjoint_of_nodup_append hnd
      exact this hm (List.mem_cons_self k ks)
    rw [specWindow.specWindowRun]
    have hstep : specWindowStep n w k = (w ++ [k]).drop (w.length + 1 - n) := by
      unfold specWindowStep
      simp [hkw]
    rw [hstep]
    have hjle : w.length + 1 - n ≤ (w ++ [k]).length := by
      have hl : (w ++ [k]).length = w.length + 1 := by simp
      omega
    have hlen1 : ((w ++ [k]).drop (w.length + 1 - n)).length = w.length + 1 - (w.length + 1 - n) := by
      simp
    have hndfull : ((w ++ [k]) ++ ks).Nodup := by
      rwa [List.append_assoc, List.singleton_append]
    have hsub : List.Sublist (((w ++ [k]).drop (w.length + 1 - n)) ++ ks) ((w ++ [k]) ++ ks) :=
      List.Sublist.append_right (List.drop_sublist (w.length + 1 - n) (w ++ [k])) ks
    have hnd' : ((((w ++ [k]).drop (w.length + 1 - n))) ++ ks).Nodup := List.Nodup.sublist hsub hndfull
    rw [ih _ h1 (by rw [hlen1]; omega) hnd']
    rw [← List.drop_append_of_le_length hjle]
    rw [List.drop_drop]
    rw [List.append_assoc, List.singleton_append]
    congr 1
    rw [hlen1]
    simp only [List.length_cons, List.length_append, List.length_singleton]
    omega

theorem specWindow_nodup_drop (n : Nat) (l : List Int) (h1 : 1 ≤ n) (hnd : l.Nodup) :
    specWindow n l = l.drop (l.length - n) := by
  cases l with
  | nil => simp [specWindow]
  | cons k ks =>
    rw [specWindow]
    have hstep : specWindowStep n [] k = [k] := by
      unfold specWindowStep
      have h0 : 1 - n = 0 := by omega
      simp [h0]
    rw [hstep]
    have hndk : ([k] ++ ks).Nodup := by simpa using hnd
    have hidx2 : ([k] : List Int).length + ks.length - n = (k :: ks).length - n := by
      have hl1 : ([k] : List Int).length = 1 := by simp
      have hl2 : (k :: ks).length = ks.length + 1 := by simp
      omega
    rw [specWindowRun_nodup_drop n ks [k] h1 (by simpa using h1) hndk, hidx2,
      List.singleton_append]

theorem seenOrAdd_of_mem (d : SlidingWindowDeduper) (k : Int) (h : d.WF)
    (hk : k ∈ d.keys) : d.seenOrAdd k = (true, d) := by
  obtain ⟨-, -, -, hset⟩ := h
  unfold SlidingWindowDeduper.seenOrAdd
  simp [(hset k).2 hk]

theorem mk0_windowSize (w : Int) :
    (SlidingWindowDeduper.mk0 w).windowSize = max 1 w.toNat := by
  show (max 1 w).toNat = max 1 w.toNat
  omega

/-- C4: for every sequence of `seen_or_add` calls on a deduper constructed with
window size `w` (clamped to at least 1), `seen_or_add k` returns true and leaves
the state unchanged iff `k` is among the most recent distinct keys in the
trailing window; otherwise it returns false and inserts `k`, evicting the
least-recently-inserted key when capacity is exceeded; and after inserting
`N + 1` distinct keys, the first is no longer seen. -/
theorem seen_or_add_window_contract (w : Int) (ops : List Int) (k : Int) :
    ((SlidingWindowDeduper.mk0 w).runAdds ops).windowSize = max 1 w.toNat ∧
    (((((SlidingWindowDeduper.mk0 w).runAdds ops).seenOrAdd k).1 = true ∧
        (((SlidingWindowDeduper.mk0 w).runAdds ops).seenOrAdd k).2 =
          (SlidingWindowDeduper.mk0 w).runAdds ops) ↔
      k ∈ specWindow (max 1 w).toNat ops) ∧
    (k ∉ specWindow (max 1 w).toNat ops →
      ((((SlidingWindowDeduper.mk0 w).runAdds ops).seenOrAdd k).1 = false ∧
        ((((SlidingWindowDeduper.mk0 w).runAdds ops).seenOrAdd k).2).keys =
          specWindowStep (max 1 w).toNat (specWindow (max 1 w).toNat ops) k)) ∧
    (∀ a : Int, ∀ t : List Int, (a :: t).Nodup →
      (a :: t).length = (max 1 w).toNat + 1 →
      ((((SlidingWindowDeduper.mk0 w).runAdds (a :: t)).seenOrAdd a).1 = false)) := by
  have hWF : ((SlidingWindowDeduper.mk0 w).runAdds ops).WF := runAdds_WF ops _ (mk0_WF w)
  have hkeys : ((SlidingWindowDeduper.mk0 w).runAdds ops).keys = specWindow (max 1 w).toNat ops :=
    runAdds_keys w ops
  have hws : ((SlidingWindowDeduper.mk0 w).runAdds ops).windowSize = (max 1 w).toNat :=
    runAdds_windowSize ops _
  refine ⟨by rw [hws]; omega, ?_, ?_, ?_⟩
  · constructor
    · rintro ⟨htrue, -⟩
      rw [seenOrAdd_fst _ _ hWF] at htrue
      rw [← hkeys]
      exact of_decide_eq_true htrue
    · intro hmem
      rw [← hkeys] at hmem
      have := seenOrAdd_of_mem _ k hWF hmem
      rw [this]
      exact ⟨rfl, rfl⟩
  · intro hnot
    rw [← hkeys] at hnot
    constructor
    · rw [seenOrAdd_fst _ _ hWF]
      exact decide_eq_false hnot
    · rw [seenOrAdd_keys _ _ hWF, hkeys, hws]
  · intro a t hnd hlen
    have hWF' : ((SlidingWindowDeduper.mk0 w).runAdds (a :: t)).WF :=
      runAdds_WF _ _ (mk0_WF w)
    rw [seenOrAdd_fst _ _ hWF', runAdds_keys w (a :: t),
      specWindow_nodup_drop _ _ (by omega) hnd]
    have hidx : (a :: t).length - (max 1 w).toNat = 1 := by
      omega
    rw [hidx]
    simp only [List.drop_succ_cons, List.drop_zero]
    have : a ∉ t := (List.nodup_cons.1 hnd).1
    exact decide_eq_false this

/-- C4 witness: window size 2, operations [5, 6], key 6 is still seen and the
state is unchanged; and inserting the 3 distinct keys [5, 6, 7] makes 5 no
longer seen. -/
theorem seen_or_add_window_contract_witness :
    ((((SlidingWindowDeduper.mk0 2).runAdds [5, 6]).seenOrAdd 6).1 = true ∧
      (((SlidingWindowDeduper.mk0 2).runAdds [5, 6]).seenOrAdd 6).2 =
        (SlidingWindowDeduper.mk0 2).runAdds [5, 6]) ∧
    ((((SlidingWindowDeduper.mk0 2).runAdds [5, 6, 7]).seenOrAdd 5).1 = false) := by
  have h := seen_or_add_window_contract 2 [5, 6] 6
  refine ⟨h.2.1.2 (by decide), ?_⟩
  exact (seen_or_add_window_contract 2 [] 0).2.2.2 5 [6, 7] (by decide) (by decide)

theorem insertFirsts_length_mono (us : List Int) : ∀ acc : List Int,
    acc.length ≤ (insertFirsts acc us).length := by
  induction us with
  | nil => intro acc; exact le_refl _
  | cons u us ih =>
    intro acc
    rw [insertFirsts]
    by_cases h : u ∈ acc
    · simpa [h] using ih acc
    · rw [if_neg h]
      exact le_trans (by simp) (ih (acc ++ [u]))

theorem insertFirsts_eq_append (us : List Int) : ∀ acc : List Int,
    insertFirsts acc us = acc ++ newFirsts acc us := by
  induction us with
  | nil => intro acc; simp [insertFirsts, newFirsts]
  | cons u us ih =>
    intro acc
    rw [insertFirsts, newFirsts]
    by_cases h : u ∈ acc
    · rw [if_pos h, if_pos h]
      exact ih acc
    · rw [if_neg h, if_neg h, ih (acc ++ [u])]
      simp

theorem insertFirsts_nodup (us : List Int) : ∀ acc : List Int, acc.Nodup →
    (insertFirsts acc us).Nodup := by
  induction us with
  | nil => intro acc h; exact h
  | cons u us ih =>
    intro acc h
    rw [insertFirsts]
    by_cases hm : u ∈ acc
    · rw [if_pos hm]; exact ih acc h
    · rw [if_neg hm]
      refine ih _ (List.Nodup.append h (List.nodup_singleton u) ?_)
      intro x hx hxu
      simp at hxu
      subst hxu
      exact hm hx

theorem insertFirsts_mem (us : List Int) : ∀ (acc : List Int) (x : Int),
    x ∈ insertFirsts acc us ↔ x ∈ acc ∨ x ∈ us := by
  induction us with
  | nil => intro acc x; simp [insertFirsts]
  | cons u us ih =>
    intro acc x
    rw [insertFirsts]
    by_cases hm : u ∈ acc
    · rw [if_pos hm, ih]
      constructor
      · rintro (h | h)
        · exact Or.inl h
        · exact Or.inr (List.mem_cons_of_mem u h)
      · rintro (h | h)
        · exact Or.inl h
        · rcases List.mem_cons.1 h with h1 | h1
          · subst h1; exact Or.inl hm
          · exact Or.inr h1
    · rw [if_neg hm, ih]
      simp only [List.mem_append, List.mem_cons, List.not_mem_nil, or_false]
      tauto

theorem processUpdate_none (st : PollState) : processUpdate st none = (st, none) := rfl

theorem processUpdate_some (st : PollState) (uid : Int) :
    processUpdate st (some uid) =
      (⟨some (advanceOffset st.offset uid), (st.deduper.seenOrAdd uid).2⟩,
        if (st.deduper.seenOrAdd uid).1 then none
        else some (uid, advanceOffset st.offset uid)) := rfl

theorem processBatch_cons (st : PollState) (u : Option Int) (us : List (Option Int)) :
    processBatch st (u :: us) =
      ((processBatch (processUpdate st u).1 us).1,
        (processUpdate st u).2.toList ++ (processBatch (processUpdate st u).1 us).2) := rfl

theorem processBatch_append (us vs : List (Option Int)) : ∀ st : PollState,
    processBatch st (us ++ vs) =
      ((processBatch (processBatch st us).1 vs).1,
        (processBatch st us).2 ++ (processBatch (processBatch st us).1 vs).2) := by
  induction us with
  | nil => intro st; simp [processBatch]
  | cons u us ih =>
    intro st
    rw [List.cons_append, processBatch_cons, processBatch_cons, ih]
    simp [processBatch_cons, List.append_assoc]

theorem processBatch_offset (us : List (Option Int)) : ∀ st : PollState,
    (processBatch st us).1.offset =
      (collectUids us).foldl (fun o u => some (advanceOffset o u)) st.offset := by
  induction us with
  | nil => intro st; rfl
  | cons u us ih =>
    intro st
    rw [processBatch_cons]
    cases u with
    | none =>
      rw [processUpdate_none]
      simpa [collectUids] using ih st
    | some uid =>
      rw [processUpdate_some]
      have h := ih ⟨some (advanceOffset st.offset uid), (st.deduper.seenOrAdd uid).2⟩
      simpa [collectUids] using h

theorem foldl_advance_some (us : List Int) : ∀ v : Int,
    us.foldl (fun o u => some (advanceOffset o u)) (some v) =
      some (us.foldl (fun a u => max a (u + 1)) v) := by
  induction us with
  | nil => intro v; rfl
  | cons u us ih =>
    intro v
    rw [List.foldl_cons, List.foldl_cons]
    exact ih (max v (u + 1))

theorem foldl_max_shift (us : List Int) : ∀ a : Int,
    us.foldl (fun x u => max x (u + 1)) (a + 1) = us.foldl max a + 1 := by
  induction us with
  | nil => intro a; rfl
  | cons u us ih =>
    intro a
    rw [List.foldl_cons, List.foldl_cons]
    have h : max (a + 1) (u + 1) = max a u + 1 := max_add_add_right a u 1
    rw [h]
    exact ih (max a u)

theorem foldl_advance_none (us : List Int) :
    us.foldl (fun o u => some (advanceOffset o u)) none =
      us.max?.map (fun v => v + 1) := by
  cases us with
  | nil => rfl
  | cons u us =>
    rw [List.foldl_cons]
    show us.foldl (fun o u => some (advanceOffset o u)) (some (u + 1)) = _
    rw [foldl_advance_some, foldl_max_shift, List.max?_cons']
    rfl

theorem processUpdate_offset_mono (st : PollState) (u : Option Int) (o : Int)
    (h : st.offset = some o) :
    ∃ o', (processUpdate st u).1.offset = some o' ∧ o ≤ o' := by
  cases u with
  | none => exact ⟨o, by rw [processUpdate_none, h], le_refl o⟩
  | some uid =>
    refine ⟨advanceOffset st.offset uid, by rw [processUpdate_some], ?_⟩
    rw [h]
    exact le_max_left o (uid + 1)

theorem processBatch_dispatch_offset (us : List (Option Int)) :
    ∀ (st : PollState) (p : Int × Int), p ∈ (processBatch st us).2 → p.1 + 1 ≤ p.2 := by
  induction us with
  | nil => intro st p hp; simp [processBatch] at hp
  | cons u us ih =>
    intro st p hp
    rw [processBatch_cons] at hp
    rcases List.mem_append.1 hp with hp | hp
    · cases u with
      | none => simp [processUpdate_none] at hp
      | some uid =>
        rw [processUpdate_some] at hp
        cases hs : (st.deduper.seenOrAdd uid).1 with
        | true =>
          rw [hs] at hp
          simp at hp
        | false =>
          rw [hs] at hp
          simp only [Bool.false_eq_true, if_false, Option.toList_some,
            List.mem_singleton] at hp
          subst hp
          show uid + 1 ≤ advanceOffset st.offset uid
          cases ho : st.offset with
          | none => simp [advanceOffset]
          | some v => simp [advanceOffset]
    · exact ih _ p hp

theorem processBatch_dedup (us : List (Option Int)) : ∀ st : PollState, st.deduper.WF →
    (insertFirsts st.deduper.keys (collectUids us)).length ≤ st.deduper.windowSize →
    (processBatch st us).1.deduper.keys = insertFirsts st.deduper.keys (collectUids us) ∧
    (processBatch st us).2.map Prod.fst = newFirsts st.deduper.keys (collectUids us) := by
  induction us with
  | nil =>
    intro st hWF hlen
    exact ⟨rfl, rfl⟩
  | cons u us ih =>
    intro st hWF hlen
    cases u with
    | none =>
      have hc : collectUids (none :: us) = collectUids us := by simp [collectUids]
      rw [hc] at hlen
      have h := ih st hWF hlen
      rw [processBatch_cons, processUpdate_none, hc]
      simpa using h
    | some uid =>
      have hc : collectUids (some uid :: us) = uid :: collectUids us := by
        simp [collectUids]
      rw [hc] at hlen
      rw [processBatch_cons, processUpdate_some, hc]
      by_cases hm : uid ∈ st.deduper.keys
      · have hseen : st.deduper.seenOrAdd uid = (true, st.deduper) :=
          seenOrAdd_of_mem _ _ hWF hm
        have hIF : insertFirsts st.deduper.keys (uid :: collectUids us) =
            insertFirsts st.deduper.keys (collectUids us) := by
          rw [insertFirsts, if_pos hm]
        have hNF : newFirsts st.deduper.keys (uid :: collectUids us) =
            newFirsts st.deduper.keys (collectUids us) := by
          rw [newFirsts, if_pos hm]
        rw [hIF] at hlen
        have h := ih ⟨some (advanceOffset st.offset uid), st.deduper⟩ hWF hlen
        rw [hseen, hIF, hNF]
        simpa using h
      · have hfst : (st.deduper.seenOrAdd uid).1 = false := by
          rw [seenOrAdd_fst _ _ hWF]
          exact decide_eq_false hm
        have hstep : insertFirsts st.deduper.keys (uid :: collectUids us) =
            insertFirsts (st.deduper.keys ++ [uid]) (collectUids us) := by
          rw [insertFirsts, if_neg hm]
        have hlt : st.deduper.keys.length + 1 ≤ st.deduper.windowSize := by
          calc st.deduper.keys.length + 1 = (st.deduper.keys ++ [uid]).length := by simp
            _ ≤ (insertFirsts (st.deduper.keys ++ [uid]) (collectUids us)).length :=
              insertFirsts_length_mono _ _
            _ = (insertFirsts st.deduper.keys (uid :: collectUids us)).length := by
              rw [hstep]
            _ ≤ st.deduper.windowSize := hlen
        have hkeys' : ((st.deduper.seenOrAdd uid).2).keys = st.deduper.keys ++ [uid] := by
          rw [seenOrAdd_keys _ _ hWF]
          unfold specWindowStep
          have h0 : (st.deduper.keys ++ [uid]).length - st.deduper.windowSize = 0 := by
            have hl : (st.deduper.keys ++ [uid]).length = st.deduper.keys.length + 1 := by
              simp
            omega
          have h0' : st.deduper.keys.length + 1 - st.deduper.windowSize = 0 := by
            omega
          simp [hm, h0, h0']
        have hWF' : ((st.deduper.seenOrAdd uid).2).WF := seenOrAdd_WF _ _ hWF
        have hws' : ((st.deduper.seenOrAdd uid).2).windowSize = st.deduper.windowSize :=
          seenOrAdd_windowSize _ _
        have hlen' : (insertFirsts ((st.deduper.seenOrAdd uid).2).keys
            (collectUids us)).length ≤ ((st.deduper.seenOrAdd uid).2).windowSize := by
          rw [hkeys', hws', ← hstep]
          exact hlen
        have h := ih ⟨some (advanceOffset st.offset uid), (st.deduper.seenOrAdd uid).2⟩
          hWF' hlen'
        rw [hfst]
        simp only [if_false, Bool.false_eq_true, Option.toList_some, List.map_cons,
          List.singleton_append]
        constructor
        · rw [hstep, ← hkeys']
          exact h.1
        · rw [newFirsts, if_neg hm]
          congr 1
          rw [← hkeys']
          exact h.2

theorem processBatch_offset_mono (us : List (Option Int)) :
    ∀ (st : PollState) (o : Int), st.offset = some o →
      ∃ o', (processBatch st us).1.offset = some o' ∧ o ≤ o' := by
  induction us with
  | nil => intro st o h; exact ⟨o, h, le_refl o⟩
  | cons u us ih =>
    intro st o h
    obtain ⟨o1, h1, h2⟩ := processUpdate_offset_mono st u o h
    obtain ⟨o2, h3, h4⟩ := ih _ o1 h1
    rw [processBatch_cons]
    exact ⟨o2, h3, le_trans h2 h4⟩

/-- C1: over two consecutive poll responses processed from a fresh loop state,
as long as the distinct parseable uids fit within the dedup window, the
handler is dispatched each uid exactly once — at its first occurrence, in
order — and every dispatch happens with the in-memory offset already advanced
strictly past the uid (so the advance is independent of the handler's
outcome); processing the concatenation coincides with processing the two
responses in sequence. -/
theorem poll_at_most_once_dispatch (w : Int) (b1 b2 : List (Option Int))
    (hwin : (insertFirsts [] (collectUids (b1 ++ b2))).length ≤ (max 1 w).toNat) :
    (processBatch ⟨none, SlidingWindowDeduper.mk0 w⟩ (b1 ++ b2)).2.map Prod.fst =
      insertFirsts [] (collectUids (b1 ++ b2)) ∧
    (∀ uid ∈ collectUids (b1 ++ b2),
      ((processBatch ⟨none, SlidingWindowDeduper.mk0 w⟩ (b1 ++ b2)).2.map Prod.fst).count uid
        = 1) ∧
    (∀ p ∈ (processBatch ⟨none, SlidingWindowDeduper.mk0 w⟩ (b1 ++ b2)).2,
      p.1 + 1 ≤ p.2) ∧
    processBatch ⟨none, SlidingWindowDeduper.mk0 w⟩ (b1 ++ b2) =
      ((processBatch (processBatch ⟨none, SlidingWindowDeduper.mk0 w⟩ b1).1 b2).1,
        (processBatch ⟨none, SlidingWindowDeduper.mk0 w⟩ b1).2 ++
          (processBatch (processBatch ⟨none, SlidingWindowDeduper.mk0 w⟩ b1).1 b2).2) := by
  have hWF : (⟨none, SlidingWindowDeduper.mk0 w⟩ : PollState).deduper.WF := mk0_WF w
  have hlen : (insertFirsts (⟨none, SlidingWindowDeduper.mk0 w⟩ : PollState).deduper.keys
      (collectUids (b1 ++ b2))).length ≤
      (⟨none, SlidingWindowDeduper.mk0 w⟩ : PollState).deduper.windowSize := hwin
  have hd := processBatch_dedup (b1 ++ b2) _ hWF hlen
  have hd2 : (processBatch ⟨none, SlidingWindowDeduper.mk0 w⟩ (b1 ++ b2)).2.map Prod.fst =
      newFirsts [] (collectUids (b1 ++ b2)) := hd.2
  have hnf : insertFirsts [] (collectUids (b1 ++ b2)) =
      newFirsts [] (collectUids (b1 ++ b2)) := by
    simpa using insertFirsts_eq_append (collectUids (b1 ++ b2)) []
  have hmain : (processBatch ⟨none, SlidingWindowDeduper.mk0 w⟩ (b1 ++ b2)).2.map Prod.fst =
      insertFirsts [] (collectUids (b1 ++ b2)) := hd2.trans hnf.symm
  refine ⟨hmain, ?_, ?_, ?_⟩
  · intro uid hm
    rw [hmain]
    exact List.count_eq_one_of_mem (insertFirsts_nodup _ [] List.nodup_nil)
      ((insertFirsts_mem _ [] uid).2 (Or.inr hm))
  · exact fun p hp => processBatch_dispatch_offset _ _ p hp
  · exact processBatch_append b1 b2 _

/-- C1 witness: two responses where the second repeats uid 2; with window 3,
the dispatched uids are exactly the first occurrences [1, 2, 3]. -/
theorem poll_at_most_once_dispatch_witness :
    (insertFirsts [] (collectUids ([some 1, some 2] ++ [some 2, none, some 3]))).length ≤
      (max 1 (3 : Int)).toNat ∧
    (processBatch ⟨none, SlidingWindowDeduper.mk0 3⟩
        ([some 1, some 2] ++ [some 2, none, some 3])).2.map Prod.fst =
      insertFirsts [] (collectUids ([some 1, some 2] ++ [some 2, none, some 3])) :=
  ⟨by decide,
    (poll_at_most_once_dispatch 3 [some 1, some 2] [some 2, none, some 3] (by decide)).1⟩

/-- C3: starting from an unconstrained offset, after processing any update
sequence the in-memory offset equals `max(uids seen) + 1` (and stays
unconstrained when no uid parsed); the offset never decreases, neither across
a single update step nor across a whole poll response. -/
theorem poll_offset_max_plus_one (w : Int) (us : List (Option Int)) :
    (processBatch ⟨none, SlidingWindowDeduper.mk0 w⟩ us).1.offset =
      (collectUids us).max?.map (fun v => v + 1) ∧
    (∀ (st : PollState) (u : Option Int) (o : Int), st.offset = some o →
      ∃ o', (processUpdate st u).1.offset = some o' ∧ o ≤ o') ∧
    (∀ (vs : List (Option Int)) (st : PollState) (o : Int), st.offset = some o →
      ∃ o', (processBatch st vs).1.offset = some o' ∧ o ≤ o') := by
  refine ⟨?_, processUpdate_offset_mono, fun vs => processBatch_offset_mono vs⟩
  rw [processBatch_offset]
  exact foldl_advance_none _

/-- C3 witness: processing uids [5, 3] from scratch yields offset 6; a step
from offset 2 never decreases it. -/
theorem poll_offset_max_plus_one_witness :
    (processBatch ⟨none, SlidingWindowDeduper.mk0 1⟩ [some 5, some 3]).1.offset =
      (collectUids [some 5, some 3]).max?.map (fun v => v + 1) ∧
    ∃ o', (processUpdate ⟨some 2, SlidingWindowDeduper.mk0 1⟩ (some 7)).1.offset = some o' ∧
      (2 : Int) ≤ o' :=
  ⟨(poll_offset_max_plus_one 1 [some 5, some 3]).1,
    (poll_offset_max_plus_one 1 []).2.1 ⟨some 2, SlidingWindowDeduper.mk0 1⟩ (some 7) 2 rfl⟩

theorem bootstrapScan_snd (us : List (Option Int)) :
    ∀ (d : SlidingWindowDeduper) (m : Option Int),
      (bootstrapScan d m us).2 = d.runAdds (collectUids us) := by
  induction us with
  | nil => intro d m; rfl
  | cons u us ih =>
    intro d m
    cases u with
    | none =>
      show (bootstrapScan d m us).2 = _
      rw [ih]
      simp [collectUids]
    | some uid =>
      show (bootstrapScan ((d.seenOrAdd uid).2) _ us).2 = _
      rw [ih]
      have hc : collectUids (some uid :: us) = uid :: collectUids us := by
        simp [collectUids]
      rw [hc, SlidingWindowDeduper.runAdds]

theorem bootstrapScan_fst_some (us : List (Option Int)) : ∀ (d : SlidingWindowDeduper) (v : Int),
    (bootstrapScan d (some v) us).1 = some ((collectUids us).foldl max v) := by
  induction us with
  | nil => intro d v; simp [bootstrapScan, collectUids]
  | cons u us ih =>
    intro d v
    cases u with
    | none =>
      show (bootstrapScan d (some v) us).1 = _
      rw [ih]
      simp [collectUids]
    | some uid =>
      show (bootstrapScan ((d.seenOrAdd uid).2) (some (max v uid)) us).1 = _
      rw [ih]
      have hc : collectUids (some uid :: us) = uid :: collectUids us := by
        simp [collectUids]
      rw [hc, List.foldl_cons]

theorem bootstrapScan_fst_none (us : List (Option Int)) : ∀ d : SlidingWindowDeduper,
    (bootstrapScan d none us).1 = (collectUids us).max? := by
  induction us with
  | nil => intro d; simp [bootstrapScan, collectUids]
  | cons u us ih =>
    intro d
    cases u with
    | none =>
      show (bootstrapScan d none us).1 = _
      rw [ih]
      simp [collectUids]
    | some uid =>
      show (bootstrapScan ((d.seenOrAdd uid).2) (some uid) us).1 = _
      rw [bootstrapScan_fst_some]
      have hc : collectUids (some uid :: us) = uid :: collectUids us := by
        simp [collectUids]
      rw [hc, List.max?_cons']

theorem bootstrapPollOffset_ok (d : SlidingWindowDeduper) (updates : List (Option Int))
    (hne : updates ≠ []) :
    bootstrapPollOffset (.response true updates) d =
      ((collectUids updates).max?.map (fun v => v + 1),
        d.runAdds (collectUids updates)) := by
  have hemp : updates.isEmpty = false := by
    cases updates with
    | nil => exact absurd rfl hne
    | cons a l => rfl
  unfold bootstrapPollOffset
  rw [← bootstrapScan_fst_none updates d, ← bootstrapScan_snd updates d none]
  cases h : (bootstrapScan d none updates).1 <;> simp [hemp, h]

/-- C9: bootstrap offset resolution returns `None` — without raising — when
the fetch throws, the payload is non-ok, or there are zero updates, leaving
the deduper untouched; otherwise it returns `max uid + 1` over the parseable
uids (skipping missing/non-integer entries) and feeds every parsed uid into
the deduper, so that a backlog [5, 7, 6] yields offset 8 and a subsequent
poll replaying 5, 6, 7 dispatches nothing. -/
theorem bootstrap_offset_resolution (d : SlidingWindowDeduper) (ok : Bool)
    (updates : List (Option Int)) :
    bootstrapPollOffset .failure d = (none, d) ∧
    bootstrapPollOffset (.response false updates) d = (none, d) ∧
    bootstrapPollOffset (.response ok []) d = (none, d) ∧
    (updates ≠ [] →
      bootstrapPollOffset (.response true updates) d =
        ((collectUids updates).max?.map (fun v => v + 1),
          d.runAdds (collectUids updates))) ∧
    (bootstrapPollOffset (.response true [some 5, some 7, some 6])
        (SlidingWindowDeduper.mk0 100)).1 = some 8 ∧
    (processBatch
        ⟨(bootstrapPollOffset (.response true [some 5, some 7, some 6])
            (SlidingWindowDeduper.mk0 100)).1,
          (bootstrapPollOffset (.response true [some 5, some 7, some 6])
            (SlidingWindowDeduper.mk0 100)).2⟩
        [some 5, some 6, some 7]).2 = [] := by
  refine ⟨rfl, rfl, ?_, bootstrapPollOffset_ok d updates, by decide, by decide⟩
  cases ok <;> rfl

/-- C9 witness: a non-empty backlog [5, None, 7] yields offset 8 and both
uids are fed to the deduper. -/
theorem bootstrap_offset_resolution_witness :
    bootstrapPollOffset (.response true [some 5, none, some 7])
        (SlidingWindowDeduper.mk0 2) =
      ((collectUids [some 5, none, some 7]).max?.map (fun v => v + 1),
        (SlidingWindowDeduper.mk0 2).runAdds (collectUids [some 5, none, some 7])) :=
  (bootstrap_offset_resolution (SlidingWindowDeduper.mk0 2) true
    [some 5, none, some 7]).2.2.2.1 (by decide)

/-- C6 counterexample: an inbound message from a `"channel"` chat — a
non-group chat type — does not overwrite the last private conversation id,
contradicting the claim that every non-group inbound message overwrites it. -/
theorem record_message_nongroup_counterexample :
    is_group_chat "channel" = false ∧
    (TelegramRuntimeState.init.recordMessage 5 10 "channel").lastPrivateChatId = none ∧
    (TelegramRuntimeState.init.recordMessage 5 10 "channel").lastPrivateChatId ≠ some 5 := by
  decide

/-- C6 (amended): the last-private-conversation-id scalar is overwritten
exactly when the inbound chat type is the string `"private"`; for every other
chat type — in particular group and supergroup — it is left unchanged. -/
theorem record_message_private_scalar (s : TelegramRuntimeState)
    (chat_id message_id : Int) (chat_type : String) :
    (s.recordMessage chat_id message_id chat_type).lastPrivateChatId =
      (if chat_type = "private" then some chat_id else s.lastPrivateChatId) ∧
    (is_group_chat chat_type = true →
      (s.recordMessage chat_id message_id chat_type).lastPrivateChatId =
        s.lastPrivateChatId) := by
  constructor
  · rfl
  · intro hg
    have hor : chat_type = "group" ∨ chat_type = "supergroup" := by
      simpa [is_group_chat] using hg
    have hne : chat_type ≠ "private" := by
      rcases hor with h | h <;> subst h <;> decide
    show (if chat_type = "private" then some chat_id else s.lastPrivateChatId) =
      s.lastPrivateChatId
    rw [if_neg hne]

/-- C6 witness: a group message leaves the scalar unchanged. -/
theorem record_message_private_scalar_witness :
    is_group_chat "group" = true ∧
    (TelegramRuntimeState.init.recordMessage 7 8 "group").lastPrivateChatId =
      TelegramRuntimeState.init.lastPrivateChatId :=
  ⟨by decide,
    (record_message_private_scalar TelegramRuntimeState.init 7 8 "group").2 (by decide)⟩

theorem recordMessageWith_index (limit : Nat) (s : TelegramRuntimeState)
    (c m : Int) (ct : String) :
    (s.recordMessageWith limit c m ct).messageChatIndex =
      (if limit < ((s.messageChatIndex.filter (fun p => p ≠ (c, m))) ++ [(c, m)]).length
       then ((s.messageChatIndex.filter (fun p => p ≠ (c, m))) ++ [(c, m)]).tail
       else (s.messageChatIndex.filter (fun p => p ≠ (c, m))) ++ [(c, m)]) := rfl

theorem recordMessageWith_length (limit : Nat) (s : TelegramRuntimeState)
    (c m : Int) (ct : String) (h : s.messageChatIndex.length ≤ limit) :
    (s.recordMessageWith limit c m ct).messageChatIndex.length ≤ limit := by
  rw [recordMessageWith_index]
  have hf : (s.messageChatIndex.filter (fun p => p ≠ (c, m))).length ≤
      s.messageChatIndex.length := List.length_filter_le _ _
  have hl : ((s.messageChatIndex.filter (fun p => p ≠ (c, m))) ++ [(c, m)]).length =
      (s.messageChatIndex.filter (fun p => p ≠ (c, m))).length + 1 := by simp
  by_cases hc : limit <
      ((s.messageChatIndex.filter (fun p => p ≠ (c, m))) ++ [(c, m)]).length
  · rw [if_pos hc, List.length_tail]
    omega
  · rw [if_neg hc]
    omega

theorem recordSeq_eq (ct : String) (ps : List (Int × Int)) :
    ∀ s : TelegramRuntimeState,
      (s.messageChatIndex.map Prod.snd ++ ps.map Prod.snd).Nodup →
      s.messageChatIndex.length ≤ MESSAGE_CHAT_INDEX_LIMIT →
      s.messageChatIndex.length + ps.length ≤ MESSAGE_CHAT_INDEX_LIMIT + 1 →
      (recordSeq ct s ps).messageChatIndex =
        (if s.messageChatIndex.length + ps.length ≤ MESSAGE_CHAT_INDEX_LIMIT
         then s.messageChatIndex ++ ps
         else (s.messageChatIndex ++ ps).tail) := by
  induction ps with
  | nil =>
    intro s hnd hle htot
    rw [if_pos (by simpa using hle)]
    simp [recordSeq]
  | cons p rest ih =>
    intro s hnd hle htot
    have hpnot : p.2 ∉ s.messageChatIndex.map Prod.snd := by
      intro hmem
      have hd := List.disjoint_of_nodup_append hnd
      exact hd hmem (by simp)
    have hfilter : s.messageChatIndex.filter (fun q => q ≠ (p.1, p.2)) =
        s.messageChatIndex := by
      rw [List.filter_eq_self]
      intro q hq
      have hq2 : q.2 ≠ p.2 := fun h => hpnot (h ▸ List.mem_map_of_mem Prod.snd hq)
      simp only [ne_eq, decide_eq_true_eq]
      intro hqp
      exact hq2 (by rw [hqp])
    have hidx : (s.recordMessage p.1 p.2 ct).messageChatIndex =
        if MESSAGE_CHAT_INDEX_LIMIT < (s.messageChatIndex ++ [p]).length
        then (s.messageChatIndex ++ [p]).tail
        else s.messageChatIndex ++ [p] := by
      rw [TelegramRuntimeState.recordMessage, recordMessageWith_index, hfilter]
    have hlapp : (s.messageChatIndex ++ [p]).length = s.messageChatIndex.length + 1 := by
      simp
    by_cases hfull : MESSAGE_CHAT_INDEX_LIMIT < s.messageChatIndex.length + 1
    · have hL : s.messageChatIndex.length = MESSAGE_CHAT_INDEX_LIMIT := by omega
      have hrest : rest = [] := by
        have hlen : (p :: rest).length = rest.length + 1 := by simp
        have : rest.length = 0 := by omega
        exact List.length_eq_zero.mp this
      subst hrest
      show (s.recordMessage p.1 p.2 ct).messageChatIndex = _
      have hone : (p :: ([] : List (Int × Int))).length = 1 := rfl
      rw [hidx, if_pos (by omega), if_neg (by omega)]
    · have hstep : (s.recordMessage p.1 p.2 ct).messageChatIndex =
          s.messageChatIndex ++ [p] := by
        rw [hidx, if_neg (by omega)]
      have hnd' : ((s.recordMessage p.1 p.2 ct).messageChatIndex.map Prod.snd ++
          rest.map Prod.snd).Nodup := by
        rw [hstep]
        simpa [List.append_assoc] using hnd
      have hle' : (s.recordMessage p.1 p.2 ct).messageChatIndex.length ≤
          MESSAGE_CHAT_INDEX_LIMIT := by
        rw [hstep, hlapp]
        omega
      have htot' : (s.recordMessage p.1 p.2 ct).messageChatIndex.length + rest.length ≤
          MESSAGE_CHAT_INDEX_LIMIT + 1 := by
        rw [hstep, hlapp]
        have : (p :: rest).length = rest.length + 1 := by simp
        omega
      show (recordSeq ct (s.recordMessage p.1 p.2 ct) rest).messageChatIndex = _
      rw [ih _ hnd' hle' htot', hstep, hlapp]
      have hlc : (p :: rest).length = rest.length + 1 := by simp
      by_cases hcond : s.messageChatIndex.length + (p :: rest).length ≤
          MESSAGE_CHAT_INDEX_LIMIT
      · rw [if_pos (by omega), if_pos hcond]
        simp
      · rw [if_neg (by omega), if_neg hcond]
        simp

/-- C7: the conversation index holds at most 20000 entries after every
`record_message` call; recording capacity + 1 keys with pairwise-distinct
message ids from an empty state evicts the least-recently-associated (first)
entry, and `get_chat_id_by_message_id` on the evicted key answers `None`. -/
theorem conversation_index_capacity (s : TelegramRuntimeState) (c m : Int) (ct : String) :
    MESSAGE_CHAT_INDEX_LIMIT = 20000 ∧
    (s.messageChatIndex.length ≤ MESSAGE_CHAT_INDEX_LIMIT →
      (s.recordMessage c m ct).messageChatIndex.length ≤ MESSAGE_CHAT_INDEX_LIMIT) ∧
    (∀ (p : Int × Int) (rest : List (Int × Int)),
      ((p :: rest).map Prod.snd).Nodup →
      (p :: rest).length = MESSAGE_CHAT_INDEX_LIMIT + 1 →
      (recordSeq ct TelegramRuntimeState.init (p :: rest)).messageChatIndex = rest ∧
      (recordSeq ct TelegramRuntimeState.init (p :: rest)).get_chat_id_by_message_id p.2 =
        none) := by
  refine ⟨rfl, recordMessageWith_length MESSAGE_CHAT_INDEX_LIMIT s c m ct, ?_⟩
  intro p rest hnd hlen
  have hinit : TelegramRuntimeState.init.messageChatIndex = [] := rfl
  have hlc : (p :: rest).length = rest.length + 1 := by simp
  have hr : rest.length = MESSAGE_CHAT_INDEX_LIMIT := by omega
  have hinitlen : TelegramRuntimeState.init.messageChatIndex.length = 0 := rfl
  have hidx : (recordSeq ct TelegramRuntimeState.init (p :: rest)).messageChatIndex =
      rest := by
    rw [recordSeq_eq ct (p :: rest) TelegramRuntimeState.init
      (by rw [hinit]; simp only [List.map_nil, List.nil_append]; exact hnd)
      (by rw [hinit]; exact Nat.zero_le _) (by omega)]
    rw [if_neg (by omega), hinit]
    simp
  refine ⟨hidx, ?_⟩
  have hnd2 : (p.2 :: rest.map Prod.snd).Nodup := by
    rw [List.map_cons] at hnd
    exact hnd
  have hp2 : p.2 ∉ rest.map Prod.snd := (List.nodup_cons.mp hnd2).1
  unfold TelegramRuntimeState.get_chat_id_by_message_id
  rw [hidx]
  have hfind : rest.reverse.find? (fun q => q.2 = p.2) = none := by
    rw [List.find?_eq_none]
    intro q hq
    have hqr : q ∈ rest := List.mem_reverse.mp hq
    simp only [decide_eq_true_eq]
    intro hq2
    exact hp2 (hq2 ▸ List.mem_map_of_mem Prod.snd hqr)
  rw [hfind]
  rfl

/-- C7 witness: a run of 20001 records with distinct message ids 0..20000
leaves exactly the last 20000 entries and loses the first key. -/
theorem conversation_index_capacity_witness :
    (recordSeq "private" TelegramRuntimeState.init
        (((0 : Int), (0 : Int)) :: (List.range MESSAGE_CHAT_INDEX_LIMIT).map
          (fun n : Nat => ((0 : Int), (n : Int) + 1)))).messageChatIndex =
      (List.range MESSAGE_CHAT_INDEX_LIMIT).map (fun n : Nat => ((0 : Int), (n : Int) + 1)) ∧
    (recordSeq "private" TelegramRuntimeState.init
        (((0 : Int), (0 : Int)) :: (List.range MESSAGE_CHAT_INDEX_LIMIT).map
          (fun n : Nat => ((0 : Int), (n : Int) + 1)))).get_chat_id_by_message_id 0 = none := by
  have hnd : ((((0 : Int), (0 : Int)) :: (List.range MESSAGE_CHAT_INDEX_LIMIT).map
      (fun n : Nat => ((0 : Int), (n : Int) + 1))).map Prod.snd).Nodup := by
    have hmap : ((((0 : Int), (0 : Int)) :: (List.range MESSAGE_CHAT_INDEX_LIMIT).map
        (fun n : Nat => ((0 : Int), (n : Int) + 1))).map Prod.snd) =
        (0 : Int) :: (List.range MESSAGE_CHAT_INDEX_LIMIT).map (fun n : Nat => (n : Int) + 1) := by
      rw [List.map_cons, List.map_map]
      rfl
    rw [hmap]
    refine List.nodup_cons.mpr ⟨?_, ?_⟩
    · intro hmem
      obtain ⟨a, -, ha⟩ := List.mem_map.mp hmem
      have ha' : (a : Int) + 1 = 0 := ha
      omega
    · refine List.Nodup.map ?_ (List.nodup_range _)
      intro a b hab
      have hab' : (a : Int) + 1 = (b : Int) + 1 := hab
      omega
  have hlen : ((((0 : Int), (0 : Int)) :: (List.range MESSAGE_CHAT_INDEX_LIMIT).map
      (fun n : Nat => ((0 : Int), (n : Int) + 1))).length) = MESSAGE_CHAT_INDEX_LIMIT + 1 := by
    rw [List.length_cons, List.length_map, List.length_range]
  exact (conversation_index_capacity TelegramRuntimeState.init 0 0 "private").2.2
    ((0 : Int), (0 : Int)) _ hnd hlen

/-- C2 counterexample: with both a routing hint (99) and a truthy group
identity (7) present, the code resolves to the hint, while the claimed
precedence (group first) resolves to the group identity. -/
theorem resolve_precedence_counterexample :
    resolveChatId (some (.int 99)) (some (.int 7)) none = some (.int 99) ∧
    resolveChatIdSpec (some (.int 99)) (some (.int 7)) none = some (.int 7) ∧
    resolveChatId (some (.int 99)) (some (.int 7)) none ≠
      resolveChatIdSpec (some (.int 99)) (some (.int 7)) none := by
  decide

/-- C2 (amended): the actual precedence is (1) the backend routing hint
`telegram_chat_id` whenever present, (2) otherwise a truthy group identity,
(3) otherwise a truthy user identity; when none resolves, the send fails
with a routing error and nothing is sent.  In particular, with no hint a
group identity wins over a user identity. -/
theorem resolve_precedence (hint group user : Option ChatVal) :
    (∀ h, hint = some h → resolveChatId hint group user = some h) ∧
    (hint = none → truthyOpt group = true → resolveChatId hint group user = group) ∧
    (hint = none → truthyOpt group = false → truthyOpt user = true →
      resolveChatId hint group user = user) ∧
    (hint = none → truthyOpt group = false → truthyOpt user = false →
      resolveChatId hint group user = none) := by
  refine ⟨?_, ?_, ?_, ?_⟩
  · intro h hh; subst hh; rfl
  · intro hh hg; subst hh; simp [resolveChatId, hg]
  · intro hh hg hu; subst hh; simp [resolveChatId, hg, hu]
  · intro hh hg hu; subst hh; simp [resolveChatId, hg, hu]

/-- C2 witness: with no hint, group identity 7 wins over user identity 5. -/
theorem resolve_precedence_witness :
    resolveChatId none (some (.int 7)) (some (.int 5)) = some (.int 7) :=
  (resolve_precedence none (some (.int 7)) (some (.int 5))).2.1 rfl (by decide)

/-- C10: chat-id normalization: `None` and ints pass through unchanged; a
string is trimmed, cut after its last colon when one is present, and
converted to an int exactly when the kept text parses as one — otherwise the
original raw value is used verbatim; e.g. "telegram:12345" becomes the int
12345. -/
theorem normalize_chat_id_contract (n m : Int) (s : String) :
    normalizeChatId none = none ∧
    normalizeChatId (some (.int n)) = some (.int n) ∧
    (pyIntParse (normalizeText s) = some m →
      normalizeChatId (some (.str s)) = some (.int m)) ∧
    (pyIntParse (normalizeText s) = none →
      normalizeChatId (some (.str s)) = some (.str s)) ∧
    normalizeText " telegram:12345 " = "12345" ∧
    normalizeChatId (some (.str "telegram:12345")) = some (.int 12345) := by
  refine ⟨rfl, rfl, ?_, ?_, ?_, ?_⟩
  · intro h
    simp only [normalizeChatId]
    rw [h]
  · intro h
    simp only [normalizeChatId]
    rw [h]
  · decide
  · decide

/-- C10 witness: a numeric string is converted, an unparseable one is
returned verbatim. -/
theorem normalize_chat_id_contract_witness :
    normalizeChatId (some (.str " 42 ")) = some (.int 42) ∧
    normalizeChatId (some (.str "@user")) = some (.str "@user") :=
  ⟨(normalize_chat_id_contract 0 42 " 42 ").2.2.1 (by decide),
    (normalize_chat_id_contract 0 0 "@user").2.2.2.1 (by decide)⟩

theorem flattenSegs_append (xs ys : List Seg) :
    flattenSegs (xs ++ ys) = flattenSegs xs ++ flattenSegs ys := by
  induction xs with
  | nil => simp [flattenSegs]
  | cons s rest ih => simp [flattenSegs, ih]

theorem dispatchSegsExc_none (segs : List Seg) : ∀ exc : List Bool,
    ∀ a ∈ dispatchSegsExc segs none exc, a.2.2 = none := by
  induction segs with
  | nil => intro exc a ha; simp [dispatchSegsExc] at ha
  | cons s rest ih =>
    intro exc a ha
    cases s with
    | seglist xs =>
      rw [dispatchSegsExc] at ha
      exact ih exc a ha
    | atom t d =>
      rw [dispatchSegsExc] at ha
      by_cases ht : t = "text"
      · rw [if_pos ht] at ha
        rcases List.mem_cons.mp ha with h | h
        · subst h; rfl
        · have hcont : (if exc.headD false then (none : Option Int) else none) = none := by
            cases exc.headD false <;> rfl
          rw [hcont] at h
          exact ih exc.tail a h
      · rw [if_neg ht] at ha
        by_cases hs : t = "image" ∨ t = "imageurl" ∨ t = "voice" ∨ t = "videourl" ∨
            t = "file" ∨ t = "emoji"
        · rw [if_pos hs] at ha
          rcases List.mem_cons.mp ha with h | h
          · subst h; rfl
          · exact ih exc.tail a h
        · rw [if_neg hs] at ha
          exact ih exc a ha

theorem dispatchSegsExc_carry (r : Option Int) (segs : List Seg) : ∀ exc : List Bool,
    ∀ a ∈ dispatchSegsExc segs r exc, a.2.2 = none ∨ (a.1 = "text" ∧ a.2.2 = r) := by
  induction segs with
  | nil => intro exc a ha; simp [dispatchSegsExc] at ha
  | cons s rest ih =>
    intro exc a ha
    cases s with
    | seglist xs =>
      rw [dispatchSegsExc] at ha
      exact ih exc a ha
    | atom t d =>
      rw [dispatchSegsExc] at ha
      by_cases ht : t = "text"
      · rw [if_pos ht] at ha
        rcases List.mem_cons.mp ha with h | h
        · subst h; exact Or.inr ⟨rfl, rfl⟩
        · cases he : exc.headD false
          · have hcont : (if exc.headD false then r else none) = none := by
              rw [he]
              rfl
            rw [hcont] at h
            exact Or.inl (dispatchSegsExc_none rest exc.tail a h)
          · have hcont : (if exc.headD false then r else none) = r := by
              rw [he]
              rfl
            rw [hcont] at h
            exact ih exc.tail a h
      · rw [if_neg ht] at ha
        by_cases hs : t = "image" ∨ t = "imageurl" ∨ t = "voice" ∨ t = "videourl" ∨
            t = "file" ∨ t = "emoji"
        · rw [if_pos hs] at ha
          rcases List.mem_cons.mp ha with h | h
          · subst h; exact Or.inl rfl
          · exact ih exc.tail a h
        · rw [if_neg hs] at ha
          exact ih exc a ha

theorem dispatchSegs_first_text (segs : List Seg) : ∀ r : Option Int,
    (∃ a ∈ dispatchSegsExc segs r [], a.1 = "text") →
    ∃ pre d rest, dispatchSegsExc segs r [] = pre ++ ("text", d, r) :: rest ∧
      (∀ b ∈ pre, b.1 ≠ "text" ∧ b.2.2 = none) ∧
      (∀ b ∈ rest, b.2.2 = none) := by
  induction segs with
  | nil => intro r h; simp [dispatchSegsExc] at h
  | cons s segs ih =>
    intro r hex
    cases s with
    | seglist xs =>
      rw [dispatchSegsExc] at hex ⊢
      exact ih r hex
    | atom t d0 =>
      by_cases ht : t = "text"
      · subst ht
        refine ⟨[], d0, dispatchSegsExc segs none [], ?_, ?_, ?_⟩
        · rw [dispatchSegsExc, if_pos rfl]
          rfl
        · intro b hb; simp at hb
        · exact fun b hb => dispatchSegsExc_none segs [] b hb
      · by_cases hs : t = "image" ∨ t = "imageurl" ∨ t = "voice" ∨ t = "videourl" ∨
            t = "file" ∨ t = "emoji"
        · have hd : dispatchSegsExc (Seg.atom t d0 :: segs) r [] =
              (t, d0, none) :: dispatchSegsExc segs r [] := by
            rw [dispatchSegsExc, if_neg ht, if_pos hs]
            rfl
          rw [hd] at hex ⊢
          have hex' : ∃ a ∈ dispatchSegsExc segs r [], a.1 = "text" := by
            obtain ⟨a, ha, hat⟩ := hex
            rcases List.mem_cons.mp ha with h | h
            · subst h; exact absurd hat ht
            · exact ⟨a, h, hat⟩
          obtain ⟨pre, d1, rest, heq, hpre, hrest⟩ := ih r hex'
          refine ⟨(t, d0, none) :: pre, d1, rest, ?_, ?_, hrest⟩
          · rw [heq, List.cons_append]
          · intro b hb
            rcases List.mem_cons.mp hb with h | h
            · subst h; exact ⟨ht, rfl⟩
            · exact hpre b h
        · have hd : dispatchSegsExc (Seg.atom t d0 :: segs) r [] =
              dispatchSegsExc segs r [] := by
            rw [dispatchSegsExc, if_neg ht, if_neg hs]
          rw [hd] at hex ⊢
          exact ih r hex

/-- C8 counterexample: with pending reply id 9 and a first text send that
raises (exception oracle `[true]`), the loop's `except` swallows the error
without running `reply_to = None`, so the second text segment is also sent
carrying reply id 9 — a segment after the first text carries the pending
reply-to id, contrary to the claim that it is cleared after the first text
send. -/
theorem segment_reply_clear_counterexample :
    dispatchSegsExc [Seg.atom "text" "a", Seg.atom "text" "b"] (some 9) [true] =
      [("text", "a", some 9), ("text", "b", some 9)] ∧
    ∃ b ∈ (dispatchSegsExc [Seg.atom "text" "a", Seg.atom "text" "b"] (some 9)
        [true]).drop 1, b.2.2 = some 9 := by
  decide

/-- C8 (amended): flattening a nested segment tree yields the depth-first,
order-preserving sequence of its leaves (the example [text, [image, text]]
flattens to [text, image, text] and flattening distributes over
concatenation).  During dispatch only text segments ever carry a reply id
and they carry exactly the pending one; a cleared reply never reappears;
the pending id is cleared immediately after a text send that returns
normally and left pending by one that raises, so the next text attempt
carries it again; in a run where no send raises, only the first text
segment in the flattened sequence carries the pending reply-to id and
every later segment carries none. -/
theorem segment_flatten_dispatch (segs rest2 : List Seg) (r : Option Int)
    (exc : List Bool) (t1 i1 t2 d : String) :
    flattenSeg (.seglist [.atom "text" t1, .seglist [.atom "image" i1, .atom "text" t2]]) =
      [.atom "text" t1, .atom "image" i1, .atom "text" t2] ∧
    (∀ xs ys : List Seg, flattenSegs (xs ++ ys) = flattenSegs xs ++ flattenSegs ys) ∧
    (∀ a ∈ dispatchSegsExc segs none exc, a.2.2 = none) ∧
    (∀ a ∈ dispatchSegsExc segs r exc, a.2.2 = none ∨ (a.1 = "text" ∧ a.2.2 = r)) ∧
    dispatchSegsExc (.atom "text" d :: rest2) r (false :: exc) =
      ("text", d, r) :: dispatchSegsExc rest2 none exc ∧
    dispatchSegsExc (.atom "text" d :: rest2) r (true :: exc) =
      ("text", d, r) :: dispatchSegsExc rest2 r exc ∧
    ((∃ a ∈ dispatchSegsExc segs r [], a.1 = "text") →
      ∃ pre d0 rest, dispatchSegsExc segs r [] = pre ++ ("text", d0, r) :: rest ∧
        (∀ b ∈ pre, b.1 ≠ "text" ∧ b.2.2 = none) ∧
        (∀ b ∈ rest, b.2.2 = none)) := by
  refine ⟨?_, flattenSegs_append, dispatchSegsExc_none segs exc,
    dispatchSegsExc_carry r segs exc, ?_, ?_, dispatchSegs_first_text segs r⟩
  · simp [flattenSeg, flattenSegs]
  · rw [dispatchSegsExc, if_pos rfl]
    rfl
  · rw [dispatchSegsExc, if_pos rfl]
    rfl

/-- C8 witness: in a run with no raising sends, a batch with a leading image
and two texts dispatches the reply id on the first text only. -/
theorem segment_flatten_dispatch_witness :
    ∃ pre d0 rest,
      dispatchSegsExc [Seg.atom "image" "i", Seg.atom "text" "a", Seg.atom "text" "b"]
          (some 9) [] =
        pre ++ ("text", d0, some 9) :: rest ∧
      (∀ b ∈ pre, b.1 ≠ "text" ∧ b.2.2 = none) ∧
      (∀ b ∈ rest, b.2.2 = none) :=
  (segment_flatten_dispatch [Seg.atom "image" "i", Seg.atom "text" "a", Seg.atom "text" "b"]
    [] (some 9) [] "" "" "" "").2.2.2.2.2.2 (by decide)

/-- C5: the text send issues the JSON request first; a form-encoded retry
happens exactly once iff the first response is not ok, its description
contains "message text is empty" case-insensitively, and the text is
non-blank; an ok first response or any other failure is returned as is with
no retry; when the retry fires its response is returned whether or not it
succeeded, so the caller always receives a response payload. -/
theorem send_message_retry (text : String) (first retry : TgResponse) :
    ((sendMessageProtocol text first retry).1 = 1 ↔
      first.ok = false ∧ isMessageTextEmptyError first = true ∧
        hasVisibleText text = true) ∧
    (first.ok = true → sendMessageProtocol text first retry = (0, first)) ∧
    ((sendMessageProtocol text first retry).1 = 1 →
      (sendMessageProtocol text first retry).2 = retry) ∧
    ((sendMessageProtocol text first retry).1 = 0 →
      (sendMessageProtocol text first retry).2 = first) ∧
    isMessageTextEmptyError ⟨false, some "Bad Request: message text is empty"⟩ = true ∧
    isMessageTextEmptyError ⟨false, some "Bad Request: MESSAGE Text Is Empty"⟩ = true ∧
    isMessageTextEmptyError ⟨false, some "Bad Request: chat not found"⟩ = false ∧
    isMessageTextEmptyError ⟨false, none⟩ = false ∧
    hasVisibleText "   " = false := by
  refine ⟨?_, ?_, ?_, ?_, by decide, by decide, by decide, by decide, by decide⟩ <;>
    cases hok : first.ok <;>
      cases hie : isMessageTextEmptyError first <;>
        cases hvt : hasVisibleText text <;>
          simp [sendMessageProtocol, hok, hie, hvt]

/-- C5 witness: a non-ok empty-text rejection of non-blank text fires exactly
one retry whose response is handed back. -/
theorem send_message_retry_witness :
    (sendMessageProtocol "hello" ⟨false, some "Bad Request: message text is empty"⟩
      ⟨false, some "still failing"⟩).1 = 1 ∧
    (sendMessageProtocol "hello" ⟨false, some "Bad Request: message text is empty"⟩
      ⟨false, some "still failing"⟩).2 = ⟨false, some "still failing"⟩ := by
  have h := send_message_retry "hello" ⟨false, some "Bad Request: message text is empty"⟩
    ⟨false, some "still failing"⟩
  have h1 : (sendMessageProtocol "hello"
      ⟨false, some "Bad Request: message text is empty"⟩
      ⟨false, some "still failing"⟩).1 = 1 :=
    h.1.mpr ⟨rfl, by decide, by decide⟩
  exact ⟨h1, h.2.2.1 h1⟩

end TGAdapter
